import Mathlib

/-! Quaternion.h : a shallow embedding of the quaternion value type

The C++ header `Quaternion.h` defines the class template `Quaternion<T>` (four private
members `n`, `ni`, `nj`, `nk` read through `a()`, `b()`, `c()`, `d()`), free functions in
namespace `std` (`norm`, `conj`, ...) and the overloaded operators `+ - * /`.

Embedding conventions.

* `Quaternion T` is a structure with the four members of the class; the scalar type `T` is a
  type parameter and the arithmetic the C++ templates require of it is supplied by type
  classes, so every definition below is executable on `ℤ` and `ℚ`.
* An overloaded operator becomes one definition per overload: `mul` (quaternion, quaternion),
  `mul_complex` (quaternion, complex), `complex_mul` (complex, quaternion), `mul_scalar`
  (quaternion, scalar), `scalar_mul` (scalar, quaternion), and likewise for `add`, `sub`, `div`.
* Where an overload computes its result type with `decltype` and converts no operand
  implicitly, the two operand scalar types are kept distinct (`HMul A B C` and friends).
  The overloads that copy a component of one operand into the result unchanged are embedded
  at equal scalar types.
* Exact scalars (`ℚ`, or any ordered field) stand in for the floating point types.
* What the header takes from the C++ library is not repository code: `std::sqrt` and the
  scalar predicates `std::isnan`, `std::isinf`, `std::isfinite` are parameters of the
  definitions that call them, and the arithmetic of `std::complex` and of `int` with `double`
  is given, in exact arithmetic, by the instances of the section on library arithmetic.
* In the mixed instantiations the scalar type `int` is the 32-bit two's complement type `int`
  of that section, whose sums and products wrap around on overflow.
-/

namespace Quater

/-! ## Data model -/

/-- Model of `std::complex<T>`: a pair read through `real()` and `imag()`. -/
structure complex (T : Type) where
  real : T
  imag : T
deriving DecidableEq

/-- The class `Quaternion<T>`: `T n, ni, nj, nk;`. The structure constructor is the
four-argument constructor `Quaternion(n, ni, nj, nk)`. -/
structure Quaternion (T : Type) where
  n : T
  ni : T
  nj : T
  nk : T
deriving DecidableEq

namespace Quaternion

variable {T : Type}

/-- The constructor `Quaternion(const std::complex<T>& complex_a, const std::complex<T>& complex_b)`. -/
def ofComplex (complex_a complex_b : complex T) : Quaternion T :=
  ⟨complex_a.real, complex_a.imag, complex_b.real, complex_b.imag⟩

/-- The same constructor with its second argument defaulted to `std::complex<T>(0, 0)`. -/
def ofComplex1 [Zero T] (complex_a : complex T) : Quaternion T :=
  ofComplex complex_a ⟨0, 0⟩

/-- Accessor `T a() const`. -/
def a (q : Quaternion T) : T := q.n

/-- Accessor `T b() const`. -/
def b (q : Quaternion T) : T := q.ni

/-- Accessor `T c() const`. -/
def c (q : Quaternion T) : T := q.nj

/-- Accessor `T d() const`. -/
def d (q : Quaternion T) : T := q.nk

/-- Accessor `std::complex<T> complex_a() const`. -/
def complex_a (q : Quaternion T) : complex T := ⟨q.n, q.ni⟩

/-- Accessor `std::complex<T> complex_b() const`. -/
def complex_b (q : Quaternion T) : complex T := ⟨q.nj, q.nk⟩

/-- Accessor `T real() const`. -/
def real (q : Quaternion T) : T := q.n

/-- Accessor `Quaternion<T> unreal() const`. -/
def unreal [Zero T] (q : Quaternion T) : Quaternion T := ⟨0, q.ni, q.nj, q.nk⟩

/-- The converting constructor `template<typename U> Quaternion(const Quaternion<U>& rhs)`:
each member is initialised from the matching accessor of `rhs`; `conv` is the implicit
conversion from `U` to `T`. -/
def convert {U : Type} (conv : U → T) (rhs : Quaternion U) : Quaternion T :=
  ⟨conv rhs.a, conv rhs.b, conv rhs.c, conv rhs.d⟩

end Quaternion

/-! ## Functions of namespace `std` -/

namespace std

variable {T : Type}

/-- The function `std::norm(const Quaternion<T>&)`. -/
def norm [Mul T] [Add T] (quat : Quaternion T) : T :=
  (quat.a * quat.a) + (quat.b * quat.b) + (quat.c * quat.c) + (quat.d * quat.d)

/-- The function `std::conj(const Quaternion<T>&)`: the literal `-1` is read in `T`. -/
def conj [Mul T] [Neg T] [One T] (quat : Quaternion T) : Quaternion T :=
  ⟨quat.a, quat.b * -1, quat.c * -1, quat.d * -1⟩

/-- The three overloads `std::abs(const Quaternion<float>&)`, `(... <double>&)`,
`(... <long double>&)`, all `std::sqrt(std::norm(quat))`; the library square root `sqrt` of the
scalar type is a parameter. -/
def abs [Mul T] [Add T] (sqrt : T → T) (quat : Quaternion T) : T :=
  sqrt (std.norm quat)

/-- The function `std::isnan(Quaternion<T>)`; the library predicate `std::isnan` of the scalar
type is the parameter `isnanT`. -/
def isnan (isnanT : T → Bool) (quat : Quaternion T) : Bool :=
  isnanT quat.a || isnanT quat.b || isnanT quat.c || isnanT quat.d

/-- The function `std::isinf(Quaternion<T>)`; the library predicate `std::isinf` of the scalar
type is the parameter `isinfT`. -/
def isinf (isinfT : T → Bool) (quat : Quaternion T) : Bool :=
  isinfT quat.a || isinfT quat.b || isinfT quat.c || isinfT quat.d

/-- The function `std::isfinite(Quaternion<T>)`; the library predicate `std::isfinite` of the
scalar type is the parameter `isfiniteT`. -/
def isfinite (isfiniteT : T → Bool) (quat : Quaternion T) : Bool :=
  isfiniteT quat.a && isfiniteT quat.b && isfiniteT quat.c && isfiniteT quat.d

end std

/-! ## Operators -/

section operators

variable {A B C D T : Type}

/-- Overload `operator+(const Quaternion<_tA>&, const Quaternion<_tB>&)`. -/
def add [HAdd A B C] (lhs : Quaternion A) (rhs : Quaternion B) : Quaternion C :=
  ⟨lhs.a + rhs.a, lhs.b + rhs.b, lhs.c + rhs.c, lhs.d + rhs.d⟩

/-- Overload `operator+(const Quaternion<_tA>&, const std::complex<_tB>&)`, at `_tA = _tB = T`. -/
def add_complex [Add T] (lhs : Quaternion T) (rhs : complex T) : Quaternion T :=
  ⟨lhs.a + rhs.real, lhs.b + rhs.imag, lhs.c, lhs.d⟩

/-- Overload `operator+(const std::complex<_tB>&, const Quaternion<_tA>&)`: it returns
`operator+(rhs, lhs)`, which is the (quaternion, complex) overload. -/
def complex_add [Add T] (lhs : complex T) (rhs : Quaternion T) : Quaternion T :=
  add_complex rhs lhs

/-- Overload `operator+(const Quaternion<_tA>&, const _tB&)`, at `_tA = _tB = T`. -/
def add_scalar [Add T] (lhs : Quaternion T) (rhs : T) : Quaternion T :=
  ⟨lhs.a + rhs, lhs.b, lhs.c, lhs.d⟩

/-- Overload `operator+(const _tA&, const Quaternion<_tB>&)`: it returns `operator+(rhs, lhs)`. -/
def scalar_add [Add T] (lhs : T) (rhs : Quaternion T) : Quaternion T :=
  add_scalar rhs lhs

/-- Overload `operator-(const Quaternion<_tA>&, const Quaternion<_tB>&)`. -/
def sub [HSub A B C] (lhs : Quaternion A) (rhs : Quaternion B) : Quaternion C :=
  ⟨lhs.a - rhs.a, lhs.b - rhs.b, lhs.c - rhs.c, lhs.d - rhs.d⟩

/-- Overload `operator-(const Quaternion<_tA>&, const std::complex<_tB>&)`, at `_tA = _tB = T`. -/
def sub_complex [Sub T] (lhs : Quaternion T) (rhs : complex T) : Quaternion T :=
  ⟨lhs.a - rhs.real, lhs.b - rhs.imag, lhs.c, lhs.d⟩

/-- Overload `operator-(const std::complex<_tB>&, const Quaternion<_tA>&)`, at `_tA = _tB = T`. -/
def complex_sub [Sub T] [Neg T] (lhs : complex T) (rhs : Quaternion T) : Quaternion T :=
  ⟨lhs.real - rhs.a, lhs.imag - rhs.b, -rhs.c, -rhs.d⟩

/-- Overload `operator-(const Quaternion<_tA>&, const _tB&)`, at `_tA = _tB = T`. -/
def sub_scalar [Sub T] (lhs : Quaternion T) (rhs : T) : Quaternion T :=
  ⟨lhs.a - rhs, lhs.b, lhs.c, lhs.d⟩

/-- Overload `operator-(const _tA&, const Quaternion<_tB>&)`, at `_tA = _tB = T`. -/
def scalar_sub [Sub T] [Neg T] (lhs : T) (rhs : Quaternion T) : Quaternion T :=
  ⟨lhs - rhs.a, -rhs.b, -rhs.c, -rhs.d⟩

/-- Overload `operator*(const Quaternion<_tA>&, const Quaternion<_tB>&)`; the four locals
`tn`, `tni`, `tnj`, `tnk` have type `decltype(lhs.a() * rhs.a())`. -/
def mul [HMul A B C] [Add C] [Sub C] (lhs : Quaternion A) (rhs : Quaternion B) : Quaternion C :=
  let tn : C := (lhs.a * rhs.a) - (lhs.b * rhs.b) - (lhs.c * rhs.c) - (lhs.d * rhs.d)
  let tni : C := (lhs.a * rhs.b) + (lhs.b * rhs.a) + (lhs.c * rhs.d) - (lhs.d * rhs.c)
  let tnj : C := (lhs.a * rhs.c) + (lhs.c * rhs.a) + (lhs.d * rhs.b) - (lhs.b * rhs.d)
  let tnk : C := (lhs.a * rhs.d) + (lhs.d * rhs.a) + (lhs.b * rhs.c) - (lhs.c * rhs.b)
  ⟨tn, tni, tnj, tnk⟩

/-- Overload `operator*(const Quaternion<_tA>&, const std::complex<_tB>&)`. -/
def mul_complex [HMul A B C] [Add C] [Sub C] (lhs : Quaternion A) (rhs : complex B) :
    Quaternion C :=
  let tn : C := (lhs.a * rhs.real) - (lhs.b * rhs.imag)
  let tni : C := (lhs.a * rhs.imag) + (lhs.b * rhs.real)
  let tnj : C := (lhs.c * rhs.real) + (lhs.d * rhs.imag)
  let tnk : C := (lhs.d * rhs.real) - (lhs.c * rhs.imag)
  ⟨tn, tni, tnj, tnk⟩

/-- Overload `operator*(const std::complex<_tB>&, const Quaternion<_tA>&)`. -/
def complex_mul [HMul B A C] [Add C] [Sub C] (lhs : complex B) (rhs : Quaternion A) :
    Quaternion C :=
  let tn : C := (lhs.real * rhs.a) - (lhs.imag * rhs.b)
  let tni : C := (lhs.real * rhs.b) + (lhs.imag * rhs.a)
  let tnj : C := (lhs.real * rhs.c) - (lhs.imag * rhs.d)
  let tnk : C := (lhs.real * rhs.d) + (lhs.imag * rhs.c)
  ⟨tn, tni, tnj, tnk⟩

/-- Overload `operator*(const Quaternion<_tA>&, const _tB&)`. -/
def mul_scalar [HMul A B C] (lhs : Quaternion A) (rhs : B) : Quaternion C :=
  ⟨lhs.a * rhs, lhs.b * rhs, lhs.c * rhs, lhs.d * rhs⟩

/-- Overload `operator*(const _tA&, const Quaternion<_tB>&)`: it returns `operator*(rhs, lhs)`,
whose type `decltype(rhs.a() * lhs)` is the declared `decltype(lhs * rhs.a())` for arithmetic
scalars. -/
def scalar_mul [HMul B A C] (lhs : A) (rhs : Quaternion B) : Quaternion C :=
  mul_scalar rhs lhs

/-- Overload `operator/(const Quaternion<_tA>&, const Quaternion<_tB>&)`; the local `norm` has
type `decltype(rhs.a())`. -/
def div [HMul A B C] [Add C] [Sub C] [Neg C] [Mul B] [Add B] [HDiv C B D]
    (lhs : Quaternion A) (rhs : Quaternion B) : Quaternion D :=
  let tn : C := (lhs.a * rhs.a) + (lhs.b * rhs.b) + (lhs.c * rhs.c) + (lhs.d * rhs.d)
  let tni : C := - (lhs.a * rhs.b) + (lhs.b * rhs.a) - (lhs.c * rhs.d) + (lhs.d * rhs.c)
  let tnj : C := - (lhs.a * rhs.c) + (lhs.c * rhs.a) - (lhs.d * rhs.b) + (lhs.b * rhs.d)
  let tnk : C := - (lhs.a * rhs.d) + (lhs.d * rhs.a) - (lhs.b * rhs.c) + (lhs.c * rhs.b)
  let norm : B := std.norm rhs
  ⟨tn / norm, tni / norm, tnj / norm, tnk / norm⟩

/-- Overload `operator/(const Quaternion<_tA>&, const _tB&)`. -/
def div_scalar [HDiv A B C] (lhs : Quaternion A) (rhs : B) : Quaternion C :=
  ⟨lhs.a / rhs, lhs.b / rhs, lhs.c / rhs, lhs.d / rhs⟩

/-- Overload `operator/(const _tB&, const Quaternion<_tA>&)`; the local `norm` has type
`decltype(rhs.a())`, and the unary minus applies to the product before the division. -/
def scalar_div [Mul A] [Add A] [HMul A B C] [Neg C] [HDiv C A D]
    (lhs : B) (rhs : Quaternion A) : Quaternion D :=
  let norm : A := std.norm rhs
  ⟨(rhs.a * lhs) / norm, (-(rhs.b * lhs)) / norm, (-(rhs.c * lhs)) / norm,
    (-(rhs.d * lhs)) / norm⟩

/-- Overload `operator==(const _tA&, const _tB&)` of the header, on two quaternions. -/
def beq [BEq T] (lhs rhs : Quaternion T) : Bool :=
  lhs.a == rhs.a && lhs.b == rhs.b && lhs.c == rhs.c && lhs.d == rhs.d

/-- The function `inverse(const Quaternion<T>&)`: the division is the
(quaternion, scalar) overload. -/
def inverse [Mul T] [Add T] [Neg T] [One T] [Div T] (quat : Quaternion T) : Quaternion T :=
  div_scalar (std.conj quat) (std.norm quat)

/-- The function `normalized(const Quaternion<T>&)`, `quat / std::abs(quat)`: the division is
the (quaternion, scalar) overload; `sqrt` is the library square root used by `std::abs`. -/
def normalized [Mul T] [Add T] [Div T] (sqrt : T → T) (quat : Quaternion T) : Quaternion T :=
  div_scalar quat (std.abs sqrt quat)

end operators

/-! ## Arithmetic of the language and of the standard library used by mixed instantiations -/

section library

variable {T : Type}

/-- The type `int` as a 32-bit two's complement integer: a value is the integer it denotes,
within the range of the type. -/
structure int where
  val : ℤ
  range : -2147483648 ≤ val ∧ val ≤ 2147483647

/-- The `int` a 32-bit register holds for the exact result `x`: a result outside the range of
the type wraps around modulo `2^32`. The language leaves signed overflow undefined; wrapping
is what the usual targets compute. -/
def int.wrap (x : ℤ) : int :=
  ⟨(x + 2147483648) % 4294967296 - 2147483648, by constructor <;> omega⟩

/-- An integer literal of type `int`. -/
instance int_ofNat (k : ℕ) : OfNat int k := ⟨int.wrap k⟩

/-- The built-in `int + int`, wrapping on overflow. -/
instance int_add : Add int := ⟨fun x y => int.wrap (x.val + y.val)⟩

/-- The built-in `int * int`, wrapping on overflow. -/
instance int_mul : Mul int := ⟨fun x y => int.wrap (x.val * y.val)⟩

/-- The conversion of an `int` to `double`, which is exact. -/
def int.toRat (x : int) : ℚ := (x.val : ℚ)

/-- The built-in `int + double`: the integer operand is converted, then added. -/
instance int_add_rat : HAdd int ℚ ℚ := ⟨fun x y => x.toRat + y⟩

/-- The built-in `int - double`: the integer operand is converted, then subtracted from. -/
instance int_sub_rat : HSub int ℚ ℚ := ⟨fun x y => x.toRat - y⟩

/-- The built-in `int * double`: the integer operand is converted, then multiplied. -/
instance int_mul_rat : HMul int ℚ ℚ := ⟨fun x y => x.toRat * y⟩

/-- The built-in `double * int`: the integer operand is converted, then multiplied. -/
instance rat_mul_int : HMul ℚ int ℚ := ⟨fun x y => x * y.toRat⟩

/-- The built-in `double / int`: the integer operand is converted, then divided by. -/
instance rat_div_int : HDiv ℚ int ℚ := ⟨fun x y => x / y.toRat⟩

/-- The library `operator-(const complex<T>&)`: both parts negated. -/
instance complex_neg [Neg T] : Neg (complex T) := ⟨fun z => ⟨-z.real, -z.imag⟩⟩

/-- The library `operator*(const T&, const complex<T>&)`: both parts scaled. -/
instance scalar_mul_complex [Mul T] : HMul T (complex T) (complex T) :=
  ⟨fun s z => ⟨s * z.real, s * z.imag⟩⟩

/-- The library `operator/(const complex<T>&, const T&)`: both parts divided. -/
instance complex_div_scalar [Div T] : HDiv (complex T) T (complex T) :=
  ⟨fun z s => ⟨z.real / s, z.imag / s⟩⟩

/-- The library `operator/(const T&, const complex<T>&)`, in exact arithmetic: the quotient of
`(s, 0)` by `z`, that is `s * conj(z) / norm(z)`. -/
instance scalar_div_complex [Mul T] [Add T] [Neg T] [Div T] : HDiv T (complex T) (complex T) :=
  ⟨fun s z => ⟨(s * z.real) / (z.real * z.real + z.imag * z.imag),
    (-(s * z.imag)) / (z.real * z.real + z.imag * z.imag)⟩⟩

/-- The built-in `int / int`: the quotient truncated toward zero (values without overflow). -/
def int_div : Div ℤ := ⟨Int.tdiv⟩

end library

/-- The instantiation `inverse<int>` of `inverse`: the scalar type is `int`, whose `/` is the
truncating `int_div`; the other operations are those of the integers. -/
def inverse_int (quat : Quaternion ℤ) : Quaternion ℤ :=
  @inverse ℤ inferInstance inferInstance inferInstance inferInstance int_div quat

/-! ## The comparison of the test harness (`test.cpp`), over exact scalars -/

/-- The constant `epsilon = 1e-05` of `test.cpp`. -/
def epsilon : ℚ := 1 / 100000

/-- The function `compare_double` of `test.cpp`, with `ℚ` for `double`. -/
def compare_double (x y : ℚ) : Bool :=
  decide (|x - y| ≤ (if |x| < |y| then |y| else |x|) * epsilon)

/-- The tolerant `operator==` on `Quaternion<double>` of `test.cpp`, with `ℚ` for `double`. -/
def test_eq (lhs rhs : Quaternion ℚ) : Bool :=
  let check_a := compare_double lhs.a rhs.a
  let check_b := compare_double lhs.b rhs.b
  let check_c := compare_double lhs.c rhs.c
  let check_d := compare_double lhs.d rhs.d
  check_a && check_b && check_c && check_d

/-! ## The standard quaternion algebra, for comparison -/

/-- A quaternion of the header read as an element of the quaternion algebra over `R` with
`i * i = j * j = -1`, the component `n` as real part and `ni`, `nj`, `nk` on `i`, `j`, `k`. -/
def toAlgebra {R : Type} [CommRing R] (q : Quaternion R) : QuaternionAlgebra R (-1) (-1) :=
  ⟨q.a, q.b, q.c, q.d⟩

/-! ## Helper lemmas -/

section lemmas

variable {T : Type}

theorem Quaternion.ext_components {p q : Quaternion T} (h1 : p.n = q.n) (h2 : p.ni = q.ni)
    (h3 : p.nj = q.nj) (h4 : p.nk = q.nk) : p = q := by
  cases p; cases q; simp_all

/-- The exact `operator==` decides equality of quaternions when `==` on scalars is lawful. -/
theorem beq_iff_eq [BEq T] [LawfulBEq T] (p q : Quaternion T) : beq p q = true ↔ p = q := by
  cases p; cases q
  simp [beq, Quaternion.a, Quaternion.b, Quaternion.c, Quaternion.d, and_assoc]

/-- Over an ordered field the norm of a quaternion vanishes only at the zero quaternion. -/
theorem norm_ne_zero_of_ne_zero {K : Type} [LinearOrderedField K] (q : Quaternion K)
    (hq : q ≠ ⟨0, 0, 0, 0⟩) : std.norm q ≠ 0 := by
  intro h
  apply hq
  simp only [std.norm, Quaternion.a, Quaternion.b, Quaternion.c, Quaternion.d] at h
  have h1 := mul_self_nonneg q.n
  have h2 := mul_self_nonneg q.ni
  have h3 := mul_self_nonneg q.nj
  have h4 := mul_self_nonneg q.nk
  have e1 : q.n * q.n = 0 := le_antisymm (by linarith) h1
  have e2 : q.ni * q.ni = 0 := le_antisymm (by linarith) h2
  have e3 : q.nj * q.nj = 0 := le_antisymm (by linarith) h3
  have e4 : q.nk * q.nk = 0 := le_antisymm (by linarith) h4
  exact Quaternion.ext_components (mul_self_eq_zero.mp e1) (mul_self_eq_zero.mp e2)
    (mul_self_eq_zero.mp e3) (mul_self_eq_zero.mp e4)

/-- The norm of a quaternion divided by a nonzero scalar. -/
theorem norm_div_scalar {K : Type} [Field K] (q : Quaternion K) (S : K) (hS : S ≠ 0) :
    std.norm (div_scalar q S) = std.norm q / (S * S) := by
  simp only [div_scalar, std.norm, Quaternion.a, Quaternion.b, Quaternion.c, Quaternion.d]
  field_simp

/-- Truncating division by `N > 1` sends to zero every integer whose square is at most `N`. -/
theorem tdiv_eq_zero_of_mul_self_le (x N : ℤ) (hN : 1 < N) (hx : x * x ≤ N) :
    Int.tdiv x N = 0 := by
  have hlt : ∀ y : ℤ, 0 ≤ y → y * y ≤ N → y < N := by
    intro y hy hyy
    rcases le_or_lt y 1 with h1 | h1
    · exact lt_of_le_of_lt h1 hN
    · have h2 : 2 * y ≤ y * y := mul_le_mul_of_nonneg_right (by linarith) hy
      linarith
  rcases le_or_lt 0 x with h0 | h0
  · exact Int.tdiv_eq_zero_of_lt h0 (hlt x h0 hx)
  · have hneg : (-x).tdiv N = 0 :=
      Int.tdiv_eq_zero_of_lt (by linarith) (hlt (-x) (by linarith) (by linarith [neg_mul_neg x x]))
    have h := Int.neg_tdiv x N
    rw [hneg] at h
    linarith

theorem complex_neg_eq [Neg T] (z : complex T) : -z = ⟨-z.real, -z.imag⟩ := rfl

theorem scalar_mul_complex_eq [Mul T] (s : T) (z : complex T) :
    (HMul.hMul s z : complex T) = ⟨s * z.real, s * z.imag⟩ := rfl

theorem complex_div_scalar_eq [Div T] (z : complex T) (s : T) :
    (HDiv.hDiv z s : complex T) = ⟨z.real / s, z.imag / s⟩ := rfl

theorem scalar_div_complex_eq [Mul T] [Add T] [Neg T] [Div T] (s : T) (z : complex T) :
    (HDiv.hDiv s z : complex T)
      = ⟨(s * z.real) / (z.real * z.real + z.imag * z.imag),
         (-(s * z.imag)) / (z.real * z.real + z.imag * z.imag)⟩ := rfl

theorem int_add_rat_eq (x : int) (y : ℚ) : (HAdd.hAdd x y : ℚ) = (x.val : ℚ) + y := rfl

theorem int_sub_rat_eq (x : int) (y : ℚ) : (HSub.hSub x y : ℚ) = (x.val : ℚ) - y := rfl

theorem int_mul_rat_eq (x : int) (y : ℚ) : (HMul.hMul x y : ℚ) = (x.val : ℚ) * y := rfl

theorem rat_mul_int_eq (x : ℚ) (y : int) : (HMul.hMul x y : ℚ) = x * (y.val : ℚ) := rfl

theorem rat_div_int_eq (x : ℚ) (y : int) : (HDiv.hDiv x y : ℚ) = x / (y.val : ℚ) := rfl

theorem int.toRat_eq (x : int) : x.toRat = (x.val : ℚ) := rfl

theorem int.wrap_val (x : ℤ) :
    (int.wrap x).val = (x + 2147483648) % 4294967296 - 2147483648 := rfl

/-- A result within the range of `int` is not changed by wrapping. -/
theorem int.wrap_val_of_range (x : ℤ) (h1 : -2147483648 ≤ x) (h2 : x ≤ 2147483647) :
    (int.wrap x).val = x := by
  rw [int.wrap_val]
  omega

theorem int.val_zero : (0 : int).val = 0 := rfl

theorem int.val_one : (1 : int).val = 1 := rfl

theorem int.val_50000 : (50000 : int).val = 50000 := rfl

theorem int.add_val (x y : int) : (x + y).val = (int.wrap (x.val + y.val)).val := rfl

theorem int.mul_val (x y : int) : (x * y).val = (int.wrap (x.val * y.val)).val := rfl

/-- The norm computed in `int` is the sum of the four squares when that sum is within the
range of the type. -/
theorem int.norm_val (p : Quaternion int)
    (h : p.a.val * p.a.val + p.b.val * p.b.val + p.c.val * p.c.val + p.d.val * p.d.val
      ≤ 2147483647) :
    (std.norm p).val
      = p.a.val * p.a.val + p.b.val * p.b.val + p.c.val * p.c.val + p.d.val * p.d.val := by
  have ha := mul_self_nonneg p.a.val
  have hb := mul_self_nonneg p.b.val
  have hc := mul_self_nonneg p.c.val
  have hd := mul_self_nonneg p.d.val
  have ea : (p.a * p.a).val = p.a.val * p.a.val := by
    rw [int.mul_val, int.wrap_val_of_range _ (by linarith) (by linarith)]
  have eb : (p.b * p.b).val = p.b.val * p.b.val := by
    rw [int.mul_val, int.wrap_val_of_range _ (by linarith) (by linarith)]
  have ec : (p.c * p.c).val = p.c.val * p.c.val := by
    rw [int.mul_val, int.wrap_val_of_range _ (by linarith) (by linarith)]
  have ed : (p.d * p.d).val = p.d.val * p.d.val := by
    rw [int.mul_val, int.wrap_val_of_range _ (by linarith) (by linarith)]
  have e1 : (p.a * p.a + p.b * p.b).val = p.a.val * p.a.val + p.b.val * p.b.val := by
    rw [int.add_val, ea, eb, int.wrap_val_of_range _ (by linarith) (by linarith)]
  have e2 : (p.a * p.a + p.b * p.b + p.c * p.c).val
      = p.a.val * p.a.val + p.b.val * p.b.val + p.c.val * p.c.val := by
    rw [int.add_val, e1, ec, int.wrap_val_of_range _ (by linarith) (by linarith)]
  show (p.a * p.a + p.b * p.b + p.c * p.c + p.d * p.d).val = _
  rw [int.add_val, e2, ed, int.wrap_val_of_range _ (by linarith) (by linarith)]

end lemmas

/-! ## Claims -/

/-- C1: over a commutative ring `operator*` on two quaternions returns the Hamilton product,
component by component with the operands in the order given, and so agrees with the
multiplication of the standard quaternion algebra; the test value
`(-1,1,-1,1) * (1/10,1/2,9/10,1) = (-7/10,-23/10,-3/2,1/2)` is an instance. -/
theorem mul_is_hamilton_product :
    (∀ (R : Type) [CommRing R] (p q : Quaternion R),
      mul p q =
          ⟨p.a * q.a - p.b * q.b - p.c * q.c - p.d * q.d,
           p.a * q.b + p.b * q.a + p.c * q.d - p.d * q.c,
           p.a * q.c + p.c * q.a + p.d * q.b - p.b * q.d,
           p.a * q.d + p.d * q.a + p.b * q.c - p.c * q.b⟩
        ∧ toAlgebra (mul p q) = toAlgebra p * toAlgebra q)
    ∧ mul (⟨-1, 1, -1, 1⟩ : Quaternion ℚ) ⟨1 / 10, 1 / 2, 9 / 10, 1⟩
        = ⟨-7 / 10, -23 / 10, -3 / 2, 1 / 2⟩ := by
  refine ⟨fun R _ p q => ⟨rfl, ?_⟩, ?_⟩
  · ext <;>
      simp [toAlgebra, mul, Quaternion.a, Quaternion.b, Quaternion.c, Quaternion.d] <;> ring1
  · simp only [mul, Quaternion.a, Quaternion.b, Quaternion.c, Quaternion.d]
    norm_num

/-- C2: over a field, for a divisor that is not the zero quaternion, `operator/` on two
quaternions equals the quaternion product of the dividend with the conjugate of the divisor,
divided (quaternion by scalar) by the norm of the divisor. The identity is algebraic: both
sides carry the same four numerators over the same divisor `norm(rhs)`. -/
theorem div_eq_mul_conj_div_norm {K : Type} [Field K] (p q : Quaternion K)
    (_hq : q ≠ ⟨0, 0, 0, 0⟩) :
    div p q = div_scalar (mul p (std.conj q)) (std.norm q) := by
  simp only [div, div_scalar, mul, std.conj, Quaternion.a, Quaternion.b, Quaternion.c,
    Quaternion.d, Quaternion.mk.injEq]
  refine ⟨?_, ?_, ?_, ?_⟩ <;> congr 1 <;> ring1

/-- Test value of C2: `(-1,1,-1,1) / (1/10,1/2,9/10,1)` is `(1/2,5/2,13/10,-3/10) / (207/100)`,
which the tolerant comparison of the test harness accepts against
`(0.241546,1.207729,0.628019,-0.144928)`. -/
theorem div_eq_mul_conj_div_norm_witness :
    (⟨1 / 10, 1 / 2, 9 / 10, 1⟩ : Quaternion ℚ) ≠ ⟨0, 0, 0, 0⟩
    ∧ div (⟨-1, 1, -1, 1⟩ : Quaternion ℚ) ⟨1 / 10, 1 / 2, 9 / 10, 1⟩
        = div_scalar (mul (⟨-1, 1, -1, 1⟩ : Quaternion ℚ) (std.conj ⟨1 / 10, 1 / 2, 9 / 10, 1⟩))
            (std.norm (⟨1 / 10, 1 / 2, 9 / 10, 1⟩ : Quaternion ℚ))
    ∧ mul (⟨-1, 1, -1, 1⟩ : Quaternion ℚ) (std.conj ⟨1 / 10, 1 / 2, 9 / 10, 1⟩)
        = ⟨1 / 2, 5 / 2, 13 / 10, -3 / 10⟩
    ∧ std.norm (⟨1 / 10, 1 / 2, 9 / 10, 1⟩ : Quaternion ℚ) = 207 / 100
    ∧ test_eq (div (⟨-1, 1, -1, 1⟩ : Quaternion ℚ) ⟨1 / 10, 1 / 2, 9 / 10, 1⟩)
        ⟨241546 / 1000000, 1207729 / 1000000, 628019 / 1000000, -144928 / 1000000⟩ = true := by
  refine ⟨by simp, div_eq_mul_conj_div_norm _ _ (by simp), ?_, ?_, ?_⟩
  · simp only [mul, std.conj, Quaternion.a, Quaternion.b, Quaternion.c, Quaternion.d]
    norm_num
  · simp only [std.norm, Quaternion.a, Quaternion.b, Quaternion.c, Quaternion.d]
    norm_num
  · simp only [test_eq, compare_double, epsilon, div, std.norm, Quaternion.a, Quaternion.b,
      Quaternion.c, Quaternion.d]
    norm_num [abs_of_pos, abs_of_neg]

/-- C3: inverse law. Over an ordered field (the rationals, the reals), for every quaternion `q`
other than the zero quaternion, `q * inverse(q)` is the unit quaternion `(1,0,0,0)`, where
`inverse(q)` is `conj(q) / norm(q)`. -/
theorem mul_inverse_eq_one {K : Type} [LinearOrderedField K] (q : Quaternion K)
    (hq : q ≠ ⟨0, 0, 0, 0⟩) :
    inverse q = div_scalar (std.conj q) (std.norm q) ∧ mul q (inverse q) = ⟨1, 0, 0, 0⟩ := by
  have hN := norm_ne_zero_of_ne_zero q hq
  refine ⟨rfl, ?_⟩
  simp only [std.norm, Quaternion.a, Quaternion.b, Quaternion.c, Quaternion.d] at hN
  simp only [inverse, div_scalar, mul, std.conj, std.norm, Quaternion.a, Quaternion.b,
    Quaternion.c, Quaternion.d, Quaternion.mk.injEq]
  refine ⟨?_, ?_, ?_, ?_⟩
  · field_simp
  · field_simp; ring1
  · field_simp; ring1
  · field_simp; ring1

/-- Test value of C3: for `q = (1/10,1/2,9/10,1)`, `inverse(q)` is
`(10/207,-50/207,-90/207,-100/207)` and `q * inverse(q)` is `(1,0,0,0)`. -/
theorem mul_inverse_eq_one_witness :
    (⟨1 / 10, 1 / 2, 9 / 10, 1⟩ : Quaternion ℚ) ≠ ⟨0, 0, 0, 0⟩
    ∧ inverse (⟨1 / 10, 1 / 2, 9 / 10, 1⟩ : Quaternion ℚ)
        = ⟨10 / 207, -50 / 207, -90 / 207, -100 / 207⟩
    ∧ mul (⟨1 / 10, 1 / 2, 9 / 10, 1⟩ : Quaternion ℚ) (inverse ⟨1 / 10, 1 / 2, 9 / 10, 1⟩)
        = ⟨1, 0, 0, 0⟩ := by
  refine ⟨by simp, ?_, (mul_inverse_eq_one _ (by simp)).2⟩
  simp only [inverse, div_scalar, std.conj, std.norm, Quaternion.a, Quaternion.b, Quaternion.c,
    Quaternion.d]
  norm_num

/-- C4: over an ordered field (the rationals, the reals), for every quaternion `q` other than
the zero quaternion, the quaternion by quaternion division `q / q` is the unit quaternion
`(1,0,0,0)`. -/
theorem div_self_eq_one {K : Type} [LinearOrderedField K] (q : Quaternion K)
    (hq : q ≠ ⟨0, 0, 0, 0⟩) :
    div q q = ⟨1, 0, 0, 0⟩ := by
  have hN := norm_ne_zero_of_ne_zero q hq
  simp only [std.norm, Quaternion.a, Quaternion.b, Quaternion.c, Quaternion.d] at hN
  simp only [div, std.norm, Quaternion.a, Quaternion.b, Quaternion.c, Quaternion.d,
    Quaternion.mk.injEq]
  refine ⟨div_self hN, ?_, ?_, ?_⟩
  · rw [div_eq_zero_iff]; left; ring1
  · rw [div_eq_zero_iff]; left; ring1
  · rw [div_eq_zero_iff]; left; ring1

/-- Test value of C4: `(1/10,1/2,9/10,1) / (1/10,1/2,9/10,1) = (1,0,0,0)`. -/
theorem div_self_eq_one_witness :
    (⟨1 / 10, 1 / 2, 9 / 10, 1⟩ : Quaternion ℚ) ≠ ⟨0, 0, 0, 0⟩
    ∧ div (⟨1 / 10, 1 / 2, 9 / 10, 1⟩ : Quaternion ℚ) ⟨1 / 10, 1 / 2, 9 / 10, 1⟩
        = ⟨1, 0, 0, 0⟩ :=
  ⟨by simp, div_self_eq_one _ (by simp)⟩

/-- C5: quaternion multiplication is not commutative. With `i = (0,1,0,0)`, `j = (0,0,1,0)`,
`k = (0,0,0,1)`, over every commutative ring `i * j = k` and `j * i = (0,0,0,-1)`; over the
integers and the rationals these two products differ, also under the exact `operator==`. -/
theorem mul_not_commutative :
    (∀ (R : Type) [CommRing R],
      mul (⟨0, 1, 0, 0⟩ : Quaternion R) ⟨0, 0, 1, 0⟩ = ⟨0, 0, 0, 1⟩
      ∧ mul (⟨0, 0, 1, 0⟩ : Quaternion R) ⟨0, 1, 0, 0⟩ = ⟨0, 0, 0, -1⟩)
    ∧ (∃ p q : Quaternion ℤ, mul p q ≠ mul q p)
    ∧ (∃ p q : Quaternion ℚ, mul p q ≠ mul q p)
    ∧ mul (⟨0, 1, 0, 0⟩ : Quaternion ℤ) ⟨0, 0, 1, 0⟩ ≠ mul (⟨0, 0, 1, 0⟩ : Quaternion ℤ) ⟨0, 1, 0, 0⟩
    ∧ beq (mul (⟨0, 1, 0, 0⟩ : Quaternion ℚ) ⟨0, 0, 1, 0⟩)
        (mul (⟨0, 0, 1, 0⟩ : Quaternion ℚ) ⟨0, 1, 0, 0⟩) = false := by
  refine ⟨fun R _ => ⟨?_, ?_⟩, ⟨⟨0, 1, 0, 0⟩, ⟨0, 0, 1, 0⟩, ?_⟩, ⟨⟨0, 1, 0, 0⟩, ⟨0, 0, 1, 0⟩, ?_⟩,
    ?_, ?_⟩
  · simp [mul, Quaternion.a, Quaternion.b, Quaternion.c, Quaternion.d]
  · simp [mul, Quaternion.a, Quaternion.b, Quaternion.c, Quaternion.d]
  · simp [mul, Quaternion.a, Quaternion.b, Quaternion.c, Quaternion.d]
  · simp [mul, Quaternion.a, Quaternion.b, Quaternion.c, Quaternion.d]
    norm_num
  · simp [mul, Quaternion.a, Quaternion.b, Quaternion.c, Quaternion.d]
  · simp [beq, mul, Quaternion.a, Quaternion.b, Quaternion.c, Quaternion.d]
    norm_num

/-- C6: `std::conj` keeps the real component and negates the three imaginary components,
`conj((a,b,c,d)) = (a,-b,-c,-d)`, and conjugating twice gives the quaternion back; the test
value `conj((1/10,1/2,9/10,1)) = (1/10,-1/2,-9/10,-1)` is an instance. -/
theorem conj_components_and_involution :
    (∀ (R : Type) [Ring R] (q : Quaternion R),
      std.conj q = ⟨q.a, -q.b, -q.c, -q.d⟩ ∧ std.conj (std.conj q) = q)
    ∧ std.conj (⟨1 / 10, 1 / 2, 9 / 10, 1⟩ : Quaternion ℚ) = ⟨1 / 10, -1 / 2, -9 / 10, -1⟩ := by
  refine ⟨fun R _ q => ⟨?_, ?_⟩, ?_⟩
  · simp [std.conj, Quaternion.a, Quaternion.b, Quaternion.c, Quaternion.d]
  · cases q
    simp [std.conj, Quaternion.a, Quaternion.b, Quaternion.c, Quaternion.d]
  · simp only [std.conj, Quaternion.a, Quaternion.b, Quaternion.c, Quaternion.d]
    norm_num

/-- C7: over an ordered ring (the integers, the rationals, the reals) `std::norm` of
`(a,b,c,d)` is `a^2 + b^2 + c^2 + d^2`, hence not negative; the test value
`norm((1/10,1/2,9/10,1)) = 207/100` is an instance. -/
theorem norm_sum_of_squares_nonneg :
    (∀ (R : Type) [LinearOrderedRing R] (q : Quaternion R),
      std.norm q = q.a ^ 2 + q.b ^ 2 + q.c ^ 2 + q.d ^ 2 ∧ 0 ≤ std.norm q)
    ∧ std.norm (⟨1 / 10, 1 / 2, 9 / 10, 1⟩ : Quaternion ℚ) = 207 / 100 := by
  refine ⟨fun R _ q => ⟨?_, ?_⟩, ?_⟩
  · simp only [std.norm, pow_two]
  · simp only [std.norm]
    exact add_nonneg (add_nonneg (add_nonneg (mul_self_nonneg q.a) (mul_self_nonneg q.b))
      (mul_self_nonneg q.c)) (mul_self_nonneg q.d)
  · simp only [std.norm, Quaternion.a, Quaternion.b, Quaternion.c, Quaternion.d]
    norm_num

/-- C8: complex-pair round trip, both ways. Reading `complex_a()` and `complex_b()` from
`Quaternion(z1, z2)` gives `z1` and `z2` back, and rebuilding a quaternion from its own two
pairs gives the quaternion back; the test pairs `(1/10,1/2)` and `(9/10,1)` are an instance. -/
theorem complex_pair_round_trip :
    (∀ (T : Type) (z1 z2 : complex T),
      (Quaternion.ofComplex z1 z2).complex_a = z1 ∧ (Quaternion.ofComplex z1 z2).complex_b = z2)
    ∧ (∀ (T : Type) (q : Quaternion T), Quaternion.ofComplex q.complex_a q.complex_b = q)
    ∧ (Quaternion.ofComplex (⟨1 / 10, 1 / 2⟩ : complex ℚ) ⟨9 / 10, 1⟩
        = ⟨1 / 10, 1 / 2, 9 / 10, 1⟩
      ∧ (Quaternion.ofComplex (⟨1 / 10, 1 / 2⟩ : complex ℚ) ⟨9 / 10, 1⟩).complex_a
        = ⟨1 / 10, 1 / 2⟩
      ∧ (Quaternion.ofComplex (⟨1 / 10, 1 / 2⟩ : complex ℚ) ⟨9 / 10, 1⟩).complex_b
        = ⟨9 / 10, 1⟩) :=
  ⟨fun _ _ _ => ⟨rfl, rfl⟩, fun _ _ => rfl, rfl, rfl, rfl⟩

/-- C9: over a commutative ring the two complex multiplication overloads agree with the
Hamilton product after the pair `(re,im)` is promoted to `(re,im,0,0)`, and have the closed
forms `q * z = (a*re - b*im, a*im + b*re, c*re + d*im, d*re - c*im)` and
`z * q = (re*a - im*b, re*b + im*a, re*c - im*d, re*d + im*c)`; the test values for
`q = (1/10,1/2,9/10,1)` and `z = (1,1)` are instances. -/
theorem complex_mul_overloads_agree_with_promotion :
    (∀ (R : Type) [CommRing R] (q : Quaternion R) (z : complex R),
      mul_complex q z = mul q ⟨z.real, z.imag, 0, 0⟩
      ∧ mul_complex q z
          = ⟨q.a * z.real - q.b * z.imag, q.a * z.imag + q.b * z.real,
             q.c * z.real + q.d * z.imag, q.d * z.real - q.c * z.imag⟩
      ∧ complex_mul z q = mul ⟨z.real, z.imag, 0, 0⟩ q
      ∧ complex_mul z q
          = ⟨z.real * q.a - z.imag * q.b, z.real * q.b + z.imag * q.a,
             z.real * q.c - z.imag * q.d, z.real * q.d + z.imag * q.c⟩)
    ∧ mul_complex (⟨1 / 10, 1 / 2, 9 / 10, 1⟩ : Quaternion ℚ) ⟨1, 1⟩
        = ⟨-2 / 5, 3 / 5, 19 / 10, 1 / 10⟩
    ∧ complex_mul (⟨1, 1⟩ : complex ℚ) ⟨1 / 10, 1 / 2, 9 / 10, 1⟩
        = ⟨-2 / 5, 3 / 5, -1 / 10, 19 / 10⟩ := by
  refine ⟨fun R _ q z => ⟨?_, rfl, ?_, rfl⟩, ?_, ?_⟩
  · simp only [mul_complex, mul, Quaternion.a, Quaternion.b, Quaternion.c, Quaternion.d,
      Quaternion.mk.injEq]
    refine ⟨?_, ?_, ?_, ?_⟩ <;> ring1
  · simp only [complex_mul, mul, Quaternion.a, Quaternion.b, Quaternion.c, Quaternion.d,
      Quaternion.mk.injEq]
    refine ⟨?_, ?_, ?_, ?_⟩ <;> ring1
  · simp only [mul_complex, Quaternion.a, Quaternion.b, Quaternion.c, Quaternion.d]
    norm_num
  · simp only [complex_mul, Quaternion.a, Quaternion.b, Quaternion.c, Quaternion.d]
    norm_num

/-- C10: scalar promotion for `+`, `-` and `*`. Over a commutative ring every scalar overload,
in either operand order, equals the quaternion by quaternion operator applied to the promoted
scalar `(s,0,0,0)`; in particular `s - q = (s - a, -b, -c, -d)` and both products with `s`
scale all four components by `s`. The test value `1 - (9/10,1/2,1/10,0) = (1/10,-1/2,-1/10,0)`
is an instance. -/
theorem scalar_overloads_agree_with_promotion :
    (∀ (R : Type) [CommRing R] (q : Quaternion R) (s : R),
      add_scalar q s = add q ⟨s, 0, 0, 0⟩
      ∧ scalar_add s q = add ⟨s, 0, 0, 0⟩ q
      ∧ sub_scalar q s = sub q ⟨s, 0, 0, 0⟩
      ∧ scalar_sub s q = sub ⟨s, 0, 0, 0⟩ q
      ∧ scalar_sub s q = ⟨s - q.a, -q.b, -q.c, -q.d⟩
      ∧ mul_scalar q s = mul q ⟨s, 0, 0, 0⟩
      ∧ scalar_mul s q = mul ⟨s, 0, 0, 0⟩ q
      ∧ mul_scalar q s = ⟨q.a * s, q.b * s, q.c * s, q.d * s⟩
      ∧ scalar_mul s q = ⟨s * q.a, s * q.b, s * q.c, s * q.d⟩)
    ∧ scalar_sub (1 : ℚ) ⟨9 / 10, 1 / 2, 1 / 10, 0⟩ = ⟨1 / 10, -1 / 2, -1 / 10, 0⟩ := by
  refine ⟨fun R _ q s => ⟨?_, ?_, ?_, ?_, rfl, ?_, ?_, rfl, ?_⟩, ?_⟩
  · simp [add_scalar, add, Quaternion.a, Quaternion.b, Quaternion.c, Quaternion.d]
  · simp [scalar_add, add_scalar, add, Quaternion.a, Quaternion.b, Quaternion.c, Quaternion.d,
      add_comm]
  · simp [sub_scalar, sub, Quaternion.a, Quaternion.b, Quaternion.c, Quaternion.d]
  · simp [scalar_sub, sub, Quaternion.a, Quaternion.b, Quaternion.c, Quaternion.d]
  · simp [mul_scalar, mul, Quaternion.a, Quaternion.b, Quaternion.c, Quaternion.d]
  · simp [scalar_mul, mul_scalar, mul, Quaternion.a, Quaternion.b, Quaternion.c, Quaternion.d,
      mul_comm]
  · simp [scalar_mul, mul_scalar, Quaternion.a, Quaternion.b, Quaternion.c, Quaternion.d,
      mul_comm]
  · simp only [scalar_sub, Quaternion.a, Quaternion.b, Quaternion.c, Quaternion.d]
    norm_num

/-- C11: complex-pair promotion for `+` and `-`. Over a commutative ring each complex overload,
in either operand order, equals the quaternion by quaternion operator applied to the promoted
pair `(x,y,0,0)`; in particular `q - z = (a - x, b - y, c, d)` and
`z - q = (x - a, y - b, -c, -d)`. The test values `(1,1) - (9/10,1/2,1/10,0)` and
`(9/10,1/2,1/10,0) - (1,1)` are instances. -/
theorem complex_overloads_agree_with_promotion :
    (∀ (R : Type) [CommRing R] (q : Quaternion R) (z : complex R),
      add_complex q z = add q ⟨z.real, z.imag, 0, 0⟩
      ∧ complex_add z q = add ⟨z.real, z.imag, 0, 0⟩ q
      ∧ sub_complex q z = sub q ⟨z.real, z.imag, 0, 0⟩
      ∧ sub_complex q z = ⟨q.a - z.real, q.b - z.imag, q.c, q.d⟩
      ∧ complex_sub z q = sub ⟨z.real, z.imag, 0, 0⟩ q
      ∧ complex_sub z q = ⟨z.real - q.a, z.imag - q.b, -q.c, -q.d⟩)
    ∧ complex_sub (⟨1, 1⟩ : complex ℚ) ⟨9 / 10, 1 / 2, 1 / 10, 0⟩ = ⟨1 / 10, 1 / 2, -1 / 10, 0⟩
    ∧ sub_complex (⟨9 / 10, 1 / 2, 1 / 10, 0⟩ : Quaternion ℚ) ⟨1, 1⟩
        = ⟨-1 / 10, -1 / 2, 1 / 10, 0⟩ := by
  refine ⟨fun R _ q z => ⟨?_, ?_, ?_, rfl, ?_, rfl⟩, ?_, ?_⟩
  · simp [add_complex, add, Quaternion.a, Quaternion.b, Quaternion.c, Quaternion.d]
  · simp [complex_add, add_complex, add, Quaternion.a, Quaternion.b, Quaternion.c, Quaternion.d,
      add_comm]
  · simp [sub_complex, sub, Quaternion.a, Quaternion.b, Quaternion.c, Quaternion.d]
  · simp [complex_sub, sub, Quaternion.a, Quaternion.b, Quaternion.c, Quaternion.d]
  · simp only [complex_sub, Quaternion.a, Quaternion.b, Quaternion.c, Quaternion.d]
    norm_num
  · simp only [sub_complex, Quaternion.a, Quaternion.b, Quaternion.c, Quaternion.d]
    norm_num

/-- C12: over a field, for a divisor that is not the zero quaternion, scalar by quaternion
division is `(s * conj(q)) / norm(q)` (scalar by quaternion product, then quaternion by scalar
division), and it is the quaternion by quaternion quotient of the promoted scalar,
`(s,0,0,0) / q`. -/
theorem scalar_div_eq_mul_conj_div_norm {K : Type} [Field K] (s : K) (q : Quaternion K)
    (_hq : q ≠ ⟨0, 0, 0, 0⟩) :
    scalar_div s q = div_scalar (scalar_mul s (std.conj q)) (std.norm q)
    ∧ scalar_div s q = div ⟨s, 0, 0, 0⟩ q := by
  constructor
  · simp only [scalar_div, div_scalar, scalar_mul, mul_scalar, std.conj, Quaternion.a,
      Quaternion.b, Quaternion.c, Quaternion.d, Quaternion.mk.injEq]
    refine ⟨trivial, ?_, ?_, ?_⟩ <;> congr 1 <;> ring1
  · simp only [scalar_div, div, Quaternion.a, Quaternion.b, Quaternion.c, Quaternion.d,
      Quaternion.mk.injEq]
    refine ⟨?_, ?_, ?_, ?_⟩ <;> congr 1 <;> ring1

/-- Test value of C12: `2 / (1/10,1/2,9/10,1) = (20/207,-100/207,-180/207,-200/207)`, which the
tolerant comparison of the test harness accepts against
`(0.0966184,-0.483092,-0.869565,-0.966184)`. -/
theorem scalar_div_eq_mul_conj_div_norm_witness :
    (⟨1 / 10, 1 / 2, 9 / 10, 1⟩ : Quaternion ℚ) ≠ ⟨0, 0, 0, 0⟩
    ∧ (scalar_div (2 : ℚ) ⟨1 / 10, 1 / 2, 9 / 10, 1⟩
          = div_scalar (scalar_mul (2 : ℚ) (std.conj ⟨1 / 10, 1 / 2, 9 / 10, 1⟩))
              (std.norm (⟨1 / 10, 1 / 2, 9 / 10, 1⟩ : Quaternion ℚ))
        ∧ scalar_div (2 : ℚ) ⟨1 / 10, 1 / 2, 9 / 10, 1⟩
          = div ⟨2, 0, 0, 0⟩ (⟨1 / 10, 1 / 2, 9 / 10, 1⟩ : Quaternion ℚ))
    ∧ scalar_div (2 : ℚ) ⟨1 / 10, 1 / 2, 9 / 10, 1⟩
        = (⟨20 / 207, -100 / 207, -180 / 207, -200 / 207⟩ : Quaternion ℚ)
    ∧ test_eq (scalar_div (2 : ℚ) ⟨1 / 10, 1 / 2, 9 / 10, 1⟩)
        ⟨966184 / 10000000, -483092 / 1000000, -869565 / 1000000, -966184 / 1000000⟩ = true := by
  refine ⟨by simp, scalar_div_eq_mul_conj_div_norm _ _ (by simp), ?_, ?_⟩
  · simp only [scalar_div, std.norm, Quaternion.a, Quaternion.b, Quaternion.c, Quaternion.d]
    norm_num
  · simp only [test_eq, compare_double, epsilon, scalar_div, std.norm, Quaternion.a,
      Quaternion.b, Quaternion.c, Quaternion.d]
    norm_num [abs_of_pos, abs_of_neg]

/-- C13: over a field, for a scalar `s` other than zero, quaternion by scalar division is
component-wise, `q / s = (a/s, b/s, c/s, d/s)`, and equals the quaternion by quaternion
quotient by the promoted scalar, `q / (s,0,0,0)`. -/
theorem div_scalar_componentwise_and_promotion {K : Type} [Field K] (q : Quaternion K) (s : K)
    (hs : s ≠ 0) :
    div_scalar q s = ⟨q.a / s, q.b / s, q.c / s, q.d / s⟩
    ∧ div_scalar q s = div q ⟨s, 0, 0, 0⟩ := by
  refine ⟨rfl, ?_⟩
  simp only [div_scalar, div, std.norm, Quaternion.a, Quaternion.b, Quaternion.c, Quaternion.d,
    Quaternion.mk.injEq]
  refine ⟨?_, ?_, ?_, ?_⟩ <;> field_simp <;> ring1

/-- Test value of C13: `(-1,1,-1,1) / 2 = (-1/2,1/2,-1/2,1/2)`, also as a quotient by
`(2,0,0,0)`. -/
theorem div_scalar_componentwise_and_promotion_witness :
    (2 : ℚ) ≠ 0
    ∧ div_scalar (⟨-1, 1, -1, 1⟩ : Quaternion ℚ) (2 : ℚ) = ⟨-1 / 2, 1 / 2, -1 / 2, 1 / 2⟩
    ∧ div_scalar (⟨-1, 1, -1, 1⟩ : Quaternion ℚ) (2 : ℚ)
        = div (⟨-1, 1, -1, 1⟩ : Quaternion ℚ) ⟨2, 0, 0, 0⟩ := by
  have h := div_scalar_componentwise_and_promotion (⟨-1, 1, -1, 1⟩ : Quaternion ℚ) 2 (by norm_num)
  refine ⟨by norm_num, ?_, h.2⟩
  rw [h.1]
  simp only [Quaternion.a, Quaternion.b, Quaternion.c, Quaternion.d, Quaternion.mk.injEq]

/-- C14, the code at `q = (0,1,0,0)` and `z = (0,1)`: the header has no division overload for
`std::complex`, so `q / z` is the (quaternion, scalar) overload and `z / q` the
(scalar, quaternion) overload, each with the complex pair as the scalar. Both return a
quaternion whose four components are complex pairs, here `((0,0),(0,-1),(0,0),(0,0))`, while
the promoted quotient `(0,1,0,0) / (0,1,0,0)` is the quaternion `(1,0,0,0)` over the scalar
type: even the real parts of the four components, `(0,0,0,0)`, are not the promoted quotient. -/
theorem div_complex_is_scalar_overload :
    (div_scalar (⟨0, 1, 0, 0⟩ : Quaternion ℚ) (⟨0, 1⟩ : complex ℚ) : Quaternion (complex ℚ))
        = ⟨⟨0, 0⟩, ⟨0, -1⟩, ⟨0, 0⟩, ⟨0, 0⟩⟩
    ∧ (scalar_div (⟨0, 1⟩ : complex ℚ) (⟨0, 1, 0, 0⟩ : Quaternion ℚ) : Quaternion (complex ℚ))
        = ⟨⟨0, 0⟩, ⟨0, -1⟩, ⟨0, 0⟩, ⟨0, 0⟩⟩
    ∧ div (⟨0, 1, 0, 0⟩ : Quaternion ℚ) (⟨0, 1, 0, 0⟩ : Quaternion ℚ) = ⟨1, 0, 0, 0⟩
    ∧ Quaternion.convert complex.real
          (div_scalar (⟨0, 1, 0, 0⟩ : Quaternion ℚ) (⟨0, 1⟩ : complex ℚ) : Quaternion (complex ℚ))
        ≠ div (⟨0, 1, 0, 0⟩ : Quaternion ℚ) (⟨0, 1, 0, 0⟩ : Quaternion ℚ)
    ∧ Quaternion.convert complex.real
          (scalar_div (⟨0, 1⟩ : complex ℚ) (⟨0, 1, 0, 0⟩ : Quaternion ℚ) : Quaternion (complex ℚ))
        ≠ div (⟨0, 1, 0, 0⟩ : Quaternion ℚ) (⟨0, 1, 0, 0⟩ : Quaternion ℚ) := by
  refine ⟨?_, ?_, ?_, ?_, ?_⟩
  · simp only [div_scalar, scalar_div_complex_eq, Quaternion.a, Quaternion.b, Quaternion.c,
      Quaternion.d]
    norm_num
  · simp only [scalar_div, std.norm, scalar_mul_complex_eq, complex_neg_eq,
      complex_div_scalar_eq, Quaternion.a, Quaternion.b, Quaternion.c, Quaternion.d]
    norm_num
  · simp only [div, std.norm, Quaternion.a, Quaternion.b, Quaternion.c, Quaternion.d]
    norm_num
  · simp only [div_scalar, div, std.norm, Quaternion.convert, scalar_div_complex_eq,
      Quaternion.a, Quaternion.b, Quaternion.c, Quaternion.d]
    norm_num
  · simp only [scalar_div, div, std.norm, Quaternion.convert, scalar_mul_complex_eq,
      complex_neg_eq, complex_div_scalar_eq, Quaternion.a, Quaternion.b, Quaternion.c,
      Quaternion.d]
    norm_num

/-- C15: addition is commutative for every operand combination over a commutative ring:
`p + q = q + p` with `p + q` the component-wise sum, `s + q = q + s` for a scalar `s` and
`z + q = q + z` for a complex pair `z`; the test value
`(1/10,1/2,9/10,1) + (9/10,1/2,1/10,0) = (1,1,1,1)` is an instance. -/
theorem add_commutative_all_overloads :
    (∀ (R : Type) [CommRing R] (p q : Quaternion R) (s : R) (z : complex R),
      add p q = ⟨p.a + q.a, p.b + q.b, p.c + q.c, p.d + q.d⟩
      ∧ add p q = add q p
      ∧ scalar_add s q = add_scalar q s
      ∧ complex_add z q = add_complex q z)
    ∧ add (⟨1 / 10, 1 / 2, 9 / 10, 1⟩ : Quaternion ℚ) ⟨9 / 10, 1 / 2, 1 / 10, 0⟩ = ⟨1, 1, 1, 1⟩
    ∧ add (⟨9 / 10, 1 / 2, 1 / 10, 0⟩ : Quaternion ℚ) ⟨1 / 10, 1 / 2, 9 / 10, 1⟩
        = ⟨1, 1, 1, 1⟩ := by
  refine ⟨fun R _ p q s z => ⟨rfl, ?_, rfl, rfl⟩, ?_, ?_⟩
  · simp only [add, Quaternion.a, Quaternion.b, Quaternion.c, Quaternion.d, Quaternion.mk.injEq]
    exact ⟨add_comm _ _, add_comm _ _, add_comm _ _, add_comm _ _⟩
  · simp only [add, Quaternion.a, Quaternion.b, Quaternion.c, Quaternion.d]
    norm_num
  · simp only [add, Quaternion.a, Quaternion.b, Quaternion.c, Quaternion.d]
    norm_num

/-- C16: scalar identities over a commutative ring: with the bare scalars `0` and `1` and the
scalar overloads of `+` and `*`, `q + 0 = q`, `0 + q = q`, `q * 1 = q` and `1 * q = q`. -/
theorem scalar_identities (R : Type) [CommRing R] (q : Quaternion R) :
    add_scalar q 0 = q ∧ scalar_add 0 q = q ∧ mul_scalar q 1 = q ∧ scalar_mul 1 q = q := by
  cases q
  simp [add_scalar, scalar_add, mul_scalar, scalar_mul, Quaternion.a, Quaternion.b,
    Quaternion.c, Quaternion.d]

/-- C19: the numeric predicates aggregate component-wise, whatever the scalar predicates are:
`std::isnan(q)` holds exactly when some component is NaN, `std::isinf(q)` exactly when some
component is infinite, and `std::isfinite(q)` exactly when all four components are finite. -/
theorem predicates_aggregate (T : Type) (isnanT isinfT isfiniteT : T → Bool)
    (q : Quaternion T) :
    (std.isnan isnanT q = true
      ↔ isnanT q.a = true ∨ isnanT q.b = true ∨ isnanT q.c = true ∨ isnanT q.d = true)
    ∧ (std.isinf isinfT q = true
      ↔ isinfT q.a = true ∨ isinfT q.b = true ∨ isinfT q.c = true ∨ isinfT q.d = true)
    ∧ (std.isfinite isfiniteT q = true
      ↔ isfiniteT q.a = true ∧ isfiniteT q.b = true ∧ isfiniteT q.c = true
        ∧ isfiniteT q.d = true) := by
  refine ⟨?_, ?_, ?_⟩
  · simp only [std.isnan, Bool.or_eq_true, or_assoc]
  · simp only [std.isinf, Bool.or_eq_true, or_assoc]
  · simp only [std.isfinite, Bool.and_eq_true, and_assoc]

/-- C18, a counterexample: the claim fails for `q / p` when the norm of the integer divisor
does not fit in `int`. `operator/` computes `std::norm(rhs)` in the scalar type of the divisor,
so for `p = Quaternion<int>(50000,0,0,0)` the 32-bit norm is `2500000000 - 2^32 = -1794967296`
and `(1,0,0,0) / p` is `(-3125/112185456,0,0,0)`, while the quotient by the converted `p` is
`(1/50000,0,0,0)`. -/
theorem mixed_div_by_int_overflow :
    (⟨50000, 0, 0, 0⟩ : Quaternion int) ≠ ⟨0, 0, 0, 0⟩
    ∧ (std.norm (⟨50000, 0, 0, 0⟩ : Quaternion int)).val = -1794967296
    ∧ (div (⟨1, 0, 0, 0⟩ : Quaternion ℚ) (⟨50000, 0, 0, 0⟩ : Quaternion int) : Quaternion ℚ)
        = ⟨-3125 / 112185456, 0, 0, 0⟩
    ∧ div (⟨1, 0, 0, 0⟩ : Quaternion ℚ)
          (Quaternion.convert int.toRat (⟨50000, 0, 0, 0⟩ : Quaternion int))
        = ⟨1 / 50000, 0, 0, 0⟩
    ∧ (div (⟨1, 0, 0, 0⟩ : Quaternion ℚ) (⟨50000, 0, 0, 0⟩ : Quaternion int) : Quaternion ℚ)
        ≠ div (⟨1, 0, 0, 0⟩ : Quaternion ℚ)
            (Quaternion.convert int.toRat (⟨50000, 0, 0, 0⟩ : Quaternion int))
    ∧ ¬ (∀ (p : Quaternion int) (q : Quaternion ℚ), p ≠ ⟨0, 0, 0, 0⟩ →
          (div q p : Quaternion ℚ) = div q (Quaternion.convert int.toRat p)) := by
  have hne : (⟨50000, 0, 0, 0⟩ : Quaternion int) ≠ ⟨0, 0, 0, 0⟩ := by
    intro h
    have h1 := congrArg (fun x : Quaternion int => x.n.val) h
    simp only [int.val_zero, int.val_one, int.val_50000, int.wrap_val] at h1
    norm_num at h1
  have hnorm : (std.norm (⟨50000, 0, 0, 0⟩ : Quaternion int)).val = -1794967296 := by
    simp only [std.norm, Quaternion.a, Quaternion.b, Quaternion.c, Quaternion.d, int.add_val,
      int.mul_val, int.val_zero, int.val_one, int.val_50000, int.wrap_val]
    norm_num
  have hcode : (div (⟨1, 0, 0, 0⟩ : Quaternion ℚ) (⟨50000, 0, 0, 0⟩ : Quaternion int)
      : Quaternion ℚ) = ⟨-3125 / 112185456, 0, 0, 0⟩ := by
    simp only [div, rat_mul_int_eq, rat_div_int_eq, hnorm, Quaternion.a, Quaternion.b,
      Quaternion.c, Quaternion.d, int.val_zero, int.val_one, int.val_50000, int.wrap_val]
    norm_num
  have hconv : div (⟨1, 0, 0, 0⟩ : Quaternion ℚ)
      (Quaternion.convert int.toRat (⟨50000, 0, 0, 0⟩ : Quaternion int))
      = ⟨1 / 50000, 0, 0, 0⟩ := by
    simp only [div, std.norm, Quaternion.convert, int.toRat_eq, Quaternion.a, Quaternion.b,
      Quaternion.c, Quaternion.d, int.val_zero, int.val_one, int.val_50000, int.wrap_val]
    norm_num
  have hdiff : (div (⟨1, 0, 0, 0⟩ : Quaternion ℚ) (⟨50000, 0, 0, 0⟩ : Quaternion int)
      : Quaternion ℚ) ≠ div (⟨1, 0, 0, 0⟩ : Quaternion ℚ)
        (Quaternion.convert int.toRat (⟨50000, 0, 0, 0⟩ : Quaternion int)) := by
    rw [hcode, hconv]
    simp only [ne_eq, Quaternion.mk.injEq, not_and]
    norm_num
  exact ⟨hne, hnorm, hcode, hconv, hdiff, fun hall => hdiff (hall _ _ hne)⟩

/-- C18, as amended: mixed-type promotion. For a quaternion `p` over `int` and a rational
quaternion `q` (rationals for the floating point type), each of `p + q`, `p - q`, `p * q`,
`q * p` and, for `q` other than the zero quaternion, `p / q` is a rational quaternion and
equals the same operator applied after converting `p` component-wise to the rationals; so
does `q / p`, for `p` other than the zero quaternion, when the sum of the four squares of `p`
fits in `int`. No integer truncation takes place. -/
theorem mixed_int_rat_promotion_without_overflow (p : Quaternion int) (q : Quaternion ℚ) :
    (add p q : Quaternion ℚ) = add (Quaternion.convert int.toRat p) q
    ∧ (sub p q : Quaternion ℚ) = sub (Quaternion.convert int.toRat p) q
    ∧ (mul p q : Quaternion ℚ) = mul (Quaternion.convert int.toRat p) q
    ∧ (mul q p : Quaternion ℚ) = mul q (Quaternion.convert int.toRat p)
    ∧ (q ≠ ⟨0, 0, 0, 0⟩ →
        (div p q : Quaternion ℚ) = div (Quaternion.convert int.toRat p) q)
    ∧ (p ≠ ⟨0, 0, 0, 0⟩ →
        p.a.val * p.a.val + p.b.val * p.b.val + p.c.val * p.c.val + p.d.val * p.d.val
          ≤ 2147483647 →
        (div q p : Quaternion ℚ) = div q (Quaternion.convert int.toRat p)) := by
  refine ⟨?_, ?_, ?_, ?_, fun _ => ?_, fun _ h => ?_⟩
  · simp only [add, Quaternion.convert, int.toRat_eq, int_add_rat_eq, Quaternion.a,
      Quaternion.b, Quaternion.c, Quaternion.d]
  · simp only [sub, Quaternion.convert, int.toRat_eq, int_sub_rat_eq, Quaternion.a,
      Quaternion.b, Quaternion.c, Quaternion.d]
  · simp only [mul, Quaternion.convert, int.toRat_eq, int_mul_rat_eq, Quaternion.a,
      Quaternion.b, Quaternion.c, Quaternion.d]
  · simp only [mul, Quaternion.convert, int.toRat_eq, rat_mul_int_eq, Quaternion.a,
      Quaternion.b, Quaternion.c, Quaternion.d]
  · simp only [div, Quaternion.convert, int.toRat_eq, int_mul_rat_eq, Quaternion.a,
      Quaternion.b, Quaternion.c, Quaternion.d]
  · have hn := int.norm_val p h
    simp only [Quaternion.a, Quaternion.b, Quaternion.c, Quaternion.d] at hn
    simp only [div, rat_mul_int_eq, rat_div_int_eq, hn, Quaternion.convert, int.toRat_eq,
      Quaternion.a, Quaternion.b, Quaternion.c, Quaternion.d, Int.cast_add, Int.cast_mul]
    simp only [std.norm, Quaternion.a, Quaternion.b, Quaternion.c, Quaternion.d]

/-- Values of C18 on the operands of the example program, `p = Quaternion<int>(1,0,1,0)` and
`q = Quaternion<double>(1,0.5,0.5,0.75)`; the sum of the squares of `p` is `2`. -/
theorem mixed_int_rat_promotion_without_overflow_witness :
    (⟨1, 0, 1, 0⟩ : Quaternion int) ≠ ⟨0, 0, 0, 0⟩
    ∧ (⟨1, 1 / 2, 1 / 2, 3 / 4⟩ : Quaternion ℚ) ≠ ⟨0, 0, 0, 0⟩
    ∧ (⟨1, 0, 1, 0⟩ : Quaternion int).a.val * (⟨1, 0, 1, 0⟩ : Quaternion int).a.val
        + (⟨1, 0, 1, 0⟩ : Quaternion int).b.val * (⟨1, 0, 1, 0⟩ : Quaternion int).b.val
        + (⟨1, 0, 1, 0⟩ : Quaternion int).c.val * (⟨1, 0, 1, 0⟩ : Quaternion int).c.val
        + (⟨1, 0, 1, 0⟩ : Quaternion int).d.val * (⟨1, 0, 1, 0⟩ : Quaternion int).d.val
        ≤ 2147483647
    ∧ (add (⟨1, 0, 1, 0⟩ : Quaternion int) (⟨1, 1 / 2, 1 / 2, 3 / 4⟩ : Quaternion ℚ)
        : Quaternion ℚ) = ⟨2, 1 / 2, 3 / 2, 3 / 4⟩
    ∧ (sub (⟨1, 0, 1, 0⟩ : Quaternion int) (⟨1, 1 / 2, 1 / 2, 3 / 4⟩ : Quaternion ℚ)
        : Quaternion ℚ) = ⟨0, -1 / 2, 1 / 2, -3 / 4⟩
    ∧ (mul (⟨1, 0, 1, 0⟩ : Quaternion int) (⟨1, 1 / 2, 1 / 2, 3 / 4⟩ : Quaternion ℚ)
        : Quaternion ℚ) = ⟨1 / 2, 5 / 4, 3 / 2, 1 / 4⟩
    ∧ (mul (⟨1, 1 / 2, 1 / 2, 3 / 4⟩ : Quaternion ℚ) (⟨1, 0, 1, 0⟩ : Quaternion int)
        : Quaternion ℚ) = ⟨1 / 2, -1 / 4, 3 / 2, 5 / 4⟩
    ∧ (div (⟨1, 0, 1, 0⟩ : Quaternion int) (⟨1, 1 / 2, 1 / 2, 3 / 4⟩ : Quaternion ℚ)
        : Quaternion ℚ) = ⟨8 / 11, -20 / 33, 8 / 33, -4 / 33⟩
    ∧ (div (⟨1, 1 / 2, 1 / 2, 3 / 4⟩ : Quaternion ℚ) (⟨1, 0, 1, 0⟩ : Quaternion int)
        : Quaternion ℚ) = ⟨3 / 4, 5 / 8, -1 / 4, 1 / 8⟩ := by
  have hp : (⟨1, 0, 1, 0⟩ : Quaternion int) ≠ ⟨0, 0, 0, 0⟩ := by
    intro h
    have h1 := congrArg (fun x : Quaternion int => x.n.val) h
    simp only [int.val_zero, int.val_one, int.val_50000, int.wrap_val] at h1
    norm_num at h1
  have hq : (⟨1, 1 / 2, 1 / 2, 3 / 4⟩ : Quaternion ℚ) ≠ ⟨0, 0, 0, 0⟩ := by simp
  have hfit : (⟨1, 0, 1, 0⟩ : Quaternion int).a.val * (⟨1, 0, 1, 0⟩ : Quaternion int).a.val
      + (⟨1, 0, 1, 0⟩ : Quaternion int).b.val * (⟨1, 0, 1, 0⟩ : Quaternion int).b.val
      + (⟨1, 0, 1, 0⟩ : Quaternion int).c.val * (⟨1, 0, 1, 0⟩ : Quaternion int).c.val
      + (⟨1, 0, 1, 0⟩ : Quaternion int).d.val * (⟨1, 0, 1, 0⟩ : Quaternion int).d.val
      ≤ 2147483647 := by
    simp only [Quaternion.a, Quaternion.b, Quaternion.c, Quaternion.d, int.val_zero,
      int.val_one]
    norm_num
  obtain ⟨h1, h2, h3, h4, h5, h6⟩ :=
    mixed_int_rat_promotion_without_overflow ⟨1, 0, 1, 0⟩ ⟨1, 1 / 2, 1 / 2, 3 / 4⟩
  refine ⟨hp, hq, hfit, ?_, ?_, ?_, ?_, ?_, ?_⟩
  · rw [h1]
    simp only [add, Quaternion.convert, int.toRat_eq, Quaternion.a, Quaternion.b, Quaternion.c,
      Quaternion.d, int.val_zero, int.val_one, int.val_50000, int.wrap_val]
    norm_num
  · rw [h2]
    simp only [sub, Quaternion.convert, int.toRat_eq, Quaternion.a, Quaternion.b, Quaternion.c,
      Quaternion.d, int.val_zero, int.val_one, int.val_50000, int.wrap_val]
    norm_num
  · rw [h3]
    simp only [mul, Quaternion.convert, int.toRat_eq, Quaternion.a, Quaternion.b, Quaternion.c,
      Quaternion.d, int.val_zero, int.val_one, int.val_50000, int.wrap_val]
    norm_num
  · rw [h4]
    simp only [mul, Quaternion.convert, int.toRat_eq, Quaternion.a, Quaternion.b, Quaternion.c,
      Quaternion.d, int.val_zero, int.val_one, int.val_50000, int.wrap_val]
    norm_num
  · rw [h5 hq]
    simp only [div, std.norm, Quaternion.convert, int.toRat_eq, Quaternion.a, Quaternion.b,
      Quaternion.c, Quaternion.d, int.val_zero, int.val_one, int.val_50000, int.wrap_val]
    norm_num
  · rw [h6 hp hfit]
    simp only [div, std.norm, Quaternion.convert, int.toRat_eq, Quaternion.a, Quaternion.b,
      Quaternion.c, Quaternion.d, int.val_zero, int.val_one, int.val_50000, int.wrap_val]
    norm_num

/-- C20: right division undoes right multiplication. Over an ordered field (the rationals, the
reals), for every `p` and every `q` other than the zero quaternion, `(p / q) * q = p`,
`(p * q) / q = p` and `p / q = p * inverse(q)`. -/
theorem div_mul_cancel_right {K : Type} [LinearOrderedField K] (p q : Quaternion K)
    (hq : q ≠ ⟨0, 0, 0, 0⟩) :
    mul (div p q) q = p ∧ div (mul p q) q = p ∧ div p q = mul p (inverse q) := by
  have hN := norm_ne_zero_of_ne_zero q hq
  simp only [std.norm, Quaternion.a, Quaternion.b, Quaternion.c, Quaternion.d] at hN
  cases p
  refine ⟨?_, ?_, ?_⟩
  · simp only [mul, div, std.norm, Quaternion.a, Quaternion.b, Quaternion.c, Quaternion.d,
      Quaternion.mk.injEq]
    refine ⟨?_, ?_, ?_, ?_⟩ <;> field_simp <;> ring1
  · simp only [mul, div, std.norm, Quaternion.a, Quaternion.b, Quaternion.c, Quaternion.d,
      Quaternion.mk.injEq]
    refine ⟨?_, ?_, ?_, ?_⟩ <;> field_simp <;> ring1
  · simp only [mul, div, inverse, div_scalar, std.conj, std.norm, Quaternion.a, Quaternion.b,
      Quaternion.c, Quaternion.d, Quaternion.mk.injEq]
    generalize q.n * q.n + q.ni * q.ni + q.nj * q.nj + q.nk * q.nk = N
    refine ⟨?_, ?_, ?_, ?_⟩ <;> ring1

/-- Values of C20 for `p = (-1,1,-1,1)` and `q = (1,1/2,1/2,3/4)`: the quotient is
`(-4/33,4/3,-4/33,4/11)`. -/
theorem div_mul_cancel_right_witness :
    (⟨1, 1 / 2, 1 / 2, 3 / 4⟩ : Quaternion ℚ) ≠ ⟨0, 0, 0, 0⟩
    ∧ (mul (div (⟨-1, 1, -1, 1⟩ : Quaternion ℚ) ⟨1, 1 / 2, 1 / 2, 3 / 4⟩)
          ⟨1, 1 / 2, 1 / 2, 3 / 4⟩ = (⟨-1, 1, -1, 1⟩ : Quaternion ℚ)
        ∧ div (mul (⟨-1, 1, -1, 1⟩ : Quaternion ℚ) ⟨1, 1 / 2, 1 / 2, 3 / 4⟩)
          ⟨1, 1 / 2, 1 / 2, 3 / 4⟩ = (⟨-1, 1, -1, 1⟩ : Quaternion ℚ)
        ∧ div (⟨-1, 1, -1, 1⟩ : Quaternion ℚ) ⟨1, 1 / 2, 1 / 2, 3 / 4⟩
          = mul (⟨-1, 1, -1, 1⟩ : Quaternion ℚ) (inverse ⟨1, 1 / 2, 1 / 2, 3 / 4⟩))
    ∧ div (⟨-1, 1, -1, 1⟩ : Quaternion ℚ) ⟨1, 1 / 2, 1 / 2, 3 / 4⟩
        = ⟨-4 / 33, 4 / 3, -4 / 33, 4 / 11⟩ := by
  refine ⟨by simp, div_mul_cancel_right _ _ (by simp), ?_⟩
  simp only [div, std.norm, Quaternion.a, Quaternion.b, Quaternion.c, Quaternion.d]
  norm_num

/-- C17: with real components and `std::abs` computed with the exact real square root, for
every `q` other than the zero quaternion `normalized(q) = q / abs(q)` is a unit quaternion:
its norm is `1` and its `abs` is `1`. -/
theorem normalized_is_unit (q : Quaternion ℝ) (hq : q ≠ ⟨0, 0, 0, 0⟩) :
    normalized Real.sqrt q = div_scalar q (std.abs Real.sqrt q)
    ∧ std.norm (normalized Real.sqrt q) = 1
    ∧ std.abs Real.sqrt (normalized Real.sqrt q) = 1 := by
  have hN : std.norm q ≠ 0 := norm_ne_zero_of_ne_zero q hq
  have h0 : 0 ≤ std.norm q :=
    add_nonneg (add_nonneg (add_nonneg (mul_self_nonneg q.a) (mul_self_nonneg q.b))
      (mul_self_nonneg q.c)) (mul_self_nonneg q.d)
  have hs : Real.sqrt (std.norm q) * Real.sqrt (std.norm q) = std.norm q :=
    Real.mul_self_sqrt h0
  have hs0 : Real.sqrt (std.norm q) ≠ 0 := (Real.sqrt_ne_zero h0).mpr hN
  have hunit : std.norm (normalized Real.sqrt q) = 1 := by
    show std.norm (div_scalar q (Real.sqrt (std.norm q))) = 1
    rw [norm_div_scalar q _ hs0, hs]
    exact div_self hN
  refine ⟨rfl, hunit, ?_⟩
  simp only [std.abs, hunit, Real.sqrt_one]

/-- Test value of C17: for `q = (1/10,1/2,9/10,1)`, `abs(q)` is the square root of `207/100`,
which lies between `1.43874` and `1.43875`, and `normalized(q)` is a unit quaternion. -/
theorem normalized_is_unit_witness :
    (⟨1 / 10, 1 / 2, 9 / 10, 1⟩ : Quaternion ℝ) ≠ ⟨0, 0, 0, 0⟩
    ∧ (normalized Real.sqrt (⟨1 / 10, 1 / 2, 9 / 10, 1⟩ : Quaternion ℝ)
          = div_scalar (⟨1 / 10, 1 / 2, 9 / 10, 1⟩ : Quaternion ℝ)
              (std.abs Real.sqrt (⟨1 / 10, 1 / 2, 9 / 10, 1⟩ : Quaternion ℝ))
        ∧ std.norm (normalized Real.sqrt (⟨1 / 10, 1 / 2, 9 / 10, 1⟩ : Quaternion ℝ)) = 1
        ∧ std.abs Real.sqrt (normalized Real.sqrt (⟨1 / 10, 1 / 2, 9 / 10, 1⟩ : Quaternion ℝ))
            = 1)
    ∧ std.abs Real.sqrt (⟨1 / 10, 1 / 2, 9 / 10, 1⟩ : Quaternion ℝ) = Real.sqrt (207 / 100)
    ∧ (143874 / 100000 : ℝ) < std.abs Real.sqrt (⟨1 / 10, 1 / 2, 9 / 10, 1⟩ : Quaternion ℝ)
    ∧ std.abs Real.sqrt (⟨1 / 10, 1 / 2, 9 / 10, 1⟩ : Quaternion ℝ) < 143875 / 100000 := by
  have hne : (⟨1 / 10, 1 / 2, 9 / 10, 1⟩ : Quaternion ℝ) ≠ ⟨0, 0, 0, 0⟩ := by simp
  have habs : std.abs Real.sqrt (⟨1 / 10, 1 / 2, 9 / 10, 1⟩ : Quaternion ℝ)
      = Real.sqrt (207 / 100) := by
    simp only [std.abs, std.norm, Quaternion.a, Quaternion.b, Quaternion.c, Quaternion.d]
    norm_num
  refine ⟨hne, normalized_is_unit _ hne, habs, ?_, ?_⟩
  · rw [habs]
    exact Real.lt_sqrt_of_sq_lt (by norm_num)
  · rw [habs, Real.sqrt_lt' (by norm_num)]
    norm_num

/-- C21: the norm is multiplicative over the quaternion product: over a commutative ring
`norm(p * q) = norm(p) * norm(q)`. -/
theorem norm_mul_eq_mul_norm (R : Type) [CommRing R] (p q : Quaternion R) :
    std.norm (mul p q) = std.norm p * std.norm q := by
  simp only [std.norm, mul, Quaternion.a, Quaternion.b, Quaternion.c, Quaternion.d]
  ring1

/-- C22: quaternion multiplication is associative: over a commutative ring
`(p * q) * r = p * (q * r)`. -/
theorem mul_associative (R : Type) [CommRing R] (p q r : Quaternion R) :
    mul (mul p q) r = mul p (mul q r) := by
  simp only [mul, Quaternion.a, Quaternion.b, Quaternion.c, Quaternion.d, Quaternion.mk.injEq]
  refine ⟨?_, ?_, ?_, ?_⟩ <;> ring1

/-- C23: a quaternion times its conjugate, in either order, is its norm as a real quaternion:
over a commutative ring `q * conj(q) = conj(q) * q = (norm(q), 0, 0, 0)`. -/
theorem mul_conj_eq_norm (R : Type) [CommRing R] (q : Quaternion R) :
    mul q (std.conj q) = ⟨std.norm q, 0, 0, 0⟩
    ∧ mul (std.conj q) q = ⟨std.norm q, 0, 0, 0⟩
    ∧ mul q (std.conj q) = mul (std.conj q) q := by
  have h1 : mul q (std.conj q) = ⟨std.norm q, 0, 0, 0⟩ := by
    simp only [mul, std.conj, std.norm, Quaternion.a, Quaternion.b, Quaternion.c, Quaternion.d,
      Quaternion.mk.injEq]
    refine ⟨?_, ?_, ?_, ?_⟩ <;> ring1
  have h2 : mul (std.conj q) q = ⟨std.norm q, 0, 0, 0⟩ := by
    simp only [mul, std.conj, std.norm, Quaternion.a, Quaternion.b, Quaternion.c, Quaternion.d,
      Quaternion.mk.injEq]
    refine ⟨?_, ?_, ?_, ?_⟩ <;> ring1
  exact ⟨h1, h2, h1.trans h2.symm⟩

/-- C24: `inverse` at the scalar type `int`. For every integer quaternion `q` with
`norm(q) > 1`, `inverse(q) = conj(q) / norm(q)` with the truncating integer division is the
zero quaternion, so `q * inverse(q)` is `(0,0,0,0)` and not the unit quaternion. -/
theorem inverse_int_truncates_to_zero (q : Quaternion ℤ) (h : 1 < std.norm q) :
    inverse_int q
        = ⟨Int.tdiv q.a (std.norm q), Int.tdiv (q.b * -1) (std.norm q),
           Int.tdiv (q.c * -1) (std.norm q), Int.tdiv (q.d * -1) (std.norm q)⟩
    ∧ inverse_int q = ⟨0, 0, 0, 0⟩
    ∧ mul q (inverse_int q) = ⟨0, 0, 0, 0⟩
    ∧ mul q (inverse_int q) ≠ ⟨1, 0, 0, 0⟩ := by
  have e : inverse_int q
      = ⟨Int.tdiv q.a (std.norm q), Int.tdiv (q.b * -1) (std.norm q),
         Int.tdiv (q.c * -1) (std.norm q), Int.tdiv (q.d * -1) (std.norm q)⟩ := rfl
  have ha := mul_self_nonneg q.a
  have hb := mul_self_nonneg q.b
  have hc := mul_self_nonneg q.c
  have hd := mul_self_nonneg q.d
  have hn : std.norm q = q.a * q.a + q.b * q.b + q.c * q.c + q.d * q.d := rfl
  have z : inverse_int q = ⟨0, 0, 0, 0⟩ := by
    rw [e]
    rw [tdiv_eq_zero_of_mul_self_le q.a _ h (by linarith),
      tdiv_eq_zero_of_mul_self_le (q.b * -1) _ h (by nlinarith),
      tdiv_eq_zero_of_mul_self_le (q.c * -1) _ h (by nlinarith),
      tdiv_eq_zero_of_mul_self_le (q.d * -1) _ h (by nlinarith)]
  have m : mul q (inverse_int q) = ⟨0, 0, 0, 0⟩ := by
    rw [z]
    simp [mul, Quaternion.a, Quaternion.b, Quaternion.c, Quaternion.d]
  refine ⟨e, z, m, ?_⟩
  rw [m]
  simp

/-- Test value of C24: `inverse((1,1,1,1))` divides `(1,-1,-1,-1)` by the norm `4` and is
`(0,0,0,0)`. -/
theorem inverse_int_truncates_to_zero_witness :
    (1 : ℤ) < std.norm (⟨1, 1, 1, 1⟩ : Quaternion ℤ)
    ∧ std.norm (⟨1, 1, 1, 1⟩ : Quaternion ℤ) = 4
    ∧ std.conj (⟨1, 1, 1, 1⟩ : Quaternion ℤ) = ⟨1, -1, -1, -1⟩
    ∧ inverse_int ⟨1, 1, 1, 1⟩ = ⟨0, 0, 0, 0⟩
    ∧ mul (⟨1, 1, 1, 1⟩ : Quaternion ℤ) (inverse_int ⟨1, 1, 1, 1⟩) = ⟨0, 0, 0, 0⟩ := by
  have h : (1 : ℤ) < std.norm (⟨1, 1, 1, 1⟩ : Quaternion ℤ) := by decide
  have t := inverse_int_truncates_to_zero ⟨1, 1, 1, 1⟩ h
  exact ⟨h, by decide, by decide, t.2.1, t.2.2.1⟩

end Quater
